import Mathlib

/-!
Shallow embedding of the progress-tracking core of the unit-assistant
repository: the progress store (`useProgress.ts`), the status-history
tracker, the analytics engine (`OverallProgress.tsx`) and the
export/import transfer format (`storageExport.ts`).

Timestamps are modelled as abstract clock values passed explicitly to each
operation (the source reads `new Date()`; all reads within one operation
are treated as the same instant).
-/

/-- Derived task status, `'not-started' | 'in-progress' | 'completed'` in the source. -/
inductive TaskStatus where
  | notStarted
  | inProgress
  | completed
deriving DecidableEq, Repr

/-- `TaskStatusChange` from `types/Unit.ts`: one entry of an answer's status history. -/
structure TaskStatusChange where
  timestamp : Nat
  status : TaskStatus
  previousStatus : TaskStatus
deriving DecidableEq, Repr

/-- `StudentAnswer` from `types/Unit.ts` (third revision, with `statusHistory`). -/
structure StudentAnswer where
  taskId : String
  content : String
  submissionDate : Nat
  lastModified : Nat
  version : Nat
  isGoodEnough : Bool
  feedbackRequested : Bool
  feedback : Option String
  statusHistory : List TaskStatusChange
deriving DecidableEq, Repr

/-- `Progress` aggregate from `types/Unit.ts`. -/
structure Progress where
  unitId : String
  currentLO : String
  currentTask : String
  completedTasks : List String
  answers : List StudentAnswer
  startDate : Nat
  lastActivity : Nat
deriving DecidableEq, Repr

/-- The freshly initialized aggregate returned by `getInitialProgress` when
nothing is saved (cursor `LO1`/`1.1`, empty answers). -/
def initialProgress (unitId : String) (now : Nat) : Progress :=
  { unitId := unitId
    currentLO := "LO1"
    currentTask := "1.1"
    completedTasks := []
    answers := []
    startDate := now
    lastActivity := now }

/-- `prev.answers.find(a => a.taskId === taskId)`. -/
def findAnswer (p : Progress) (taskId : String) : Option StudentAnswer :=
  p.answers.find? (fun a => a.taskId == taskId)

/-- `getTaskStatus` from `useProgress.ts` (lines 384-389). -/
def getTaskStatus (p : Progress) (taskId : String) : TaskStatus :=
  match findAnswer p taskId with
  | none => .notStarted
  | some a => if a.isGoodEnough then .completed else .inProgress

/-- `addStatusChange` from `useProgress.ts` (lines 391-414): appends a
status-history entry to every answer matching `taskId` when the current
derived status differs from `newStatus`; otherwise returns unchanged. -/
def addStatusChange (now : Nat) (p : Progress) (taskId : String)
    (newStatus : TaskStatus) : Progress :=
  let currentStatus := getTaskStatus p taskId
  if currentStatus = newStatus then p
  else
    let change : TaskStatusChange :=
      { timestamp := now, status := newStatus, previousStatus := currentStatus }
    { p with
      answers := p.answers.map (fun a =>
        if a.taskId == taskId then
          { a with
            statusHistory := a.statusHistory ++ [change]
            lastModified := now }
        else a)
      lastActivity := now }

/-- `content.trim().length > 0` from the source, in the equivalent structural
form "some character of `content` is not whitespace" (a string's trimmed
length is positive exactly when it has a non-whitespace character). -/
def trimmedNonEmpty (s : String) : Bool :=
  s.data.any (fun c => !c.isWhitespace)

/-- `updateAnswer` from `useProgress.ts` (lines 416-465): upserts the answer
for `taskId`; status for the history entry is `completed` if the existing
answer is good enough, else `in-progress`/`not-started` by trimmed content. -/
def updateAnswer (now : Nat) (p : Progress) (taskId content : String) : Progress :=
  let currentStatus := getTaskStatus p taskId
  let willBeInProgress := trimmedNonEmpty content
  let existingAnswer := findAnswer p taskId
  let newStatus : TaskStatus :=
    match existingAnswer with
    | some a =>
        if a.isGoodEnough then .completed
        else if willBeInProgress then .inProgress else .notStarted
    | none => if willBeInProgress then .inProgress else .notStarted
  let statusChange : Option TaskStatusChange :=
    if currentStatus ≠ newStatus then
      some { timestamp := now, status := newStatus, previousStatus := currentStatus }
    else none
  let newAnswers : List StudentAnswer :=
    match existingAnswer with
    | some _ =>
        p.answers.map (fun a =>
          if a.taskId == taskId then
            { a with
              content := content
              lastModified := now
              version := a.version + 1
              statusHistory :=
                match statusChange with
                | some c => a.statusHistory ++ [c]
                | none => a.statusHistory }
          else a)
    | none =>
        p.answers ++ [{ taskId := taskId
                        content := content
                        submissionDate := now
                        lastModified := now
                        version := 1
                        isGoodEnough := false
                        feedbackRequested := false
                        feedback := none
                        statusHistory :=
                          match statusChange with
                          | some c => [c]
                          | none => [] }]
  { p with answers := newAnswers, lastActivity := now }

/-- Key-based deduplication keeping the first occurrence, with an explicit
`seen` accumulator: the JS `Set`/`Map` insertion semantics used by
`markTaskComplete`, `getNextTask` and the analytics task collection. -/
def dedupFirstAux (key : α → String) (seen : List String) : List α → List α
  | [] => []
  | x :: xs =>
      if key x ∈ seen then dedupFirstAux key seen xs
      else x :: dedupFirstAux key (key x :: seen) xs

/-- Deduplicate by key, keeping each key's first occurrence in order. -/
def dedupFirst (key : α → String) (l : List α) : List α :=
  dedupFirstAux key [] l

/-- `markTaskComplete`: adds `taskId` to `completedTasks` via
`[...new Set([...prev.completedTasks, taskId])]` (first-occurrence order). -/
def markTaskComplete (now : Nat) (p : Progress) (taskId : String) : Progress :=
  { p with
    completedTasks := dedupFirst id (p.completedTasks ++ [taskId])
    lastActivity := now }

/-- `markTaskIncomplete`: removes `taskId` from `completedTasks` (the locally
computed `newStatus` in the source is unused). -/
def markTaskIncomplete (now : Nat) (p : Progress) (taskId : String) : Progress :=
  { p with
    completedTasks := p.completedTasks.filter (fun id => id ≠ taskId)
    lastActivity := now }

/-- `markAsGoodEnough` from `useProgress.ts` (lines 486-497): records a status
change for `completed` (flag true) or `in-progress` (flag false), then sets
the flag on matching answers. -/
def markAsGoodEnough (now : Nat) (p : Progress) (taskId : String)
    (isGoodEnough : Bool) : Progress :=
  let newStatus : TaskStatus := if isGoodEnough then .completed else .inProgress
  let p1 := addStatusChange now p taskId newStatus
  { p1 with
    answers := p1.answers.map (fun a =>
      if a.taskId == taskId then { a with isGoodEnough := isGoodEnough } else a)
    lastActivity := now }

/-- `addFeedback`: sets feedback text and `feedbackRequested`, bumps `lastModified`. -/
def addFeedback (now : Nat) (p : Progress) (taskId feedback : String) : Progress :=
  { p with
    answers := p.answers.map (fun a =>
      if a.taskId == taskId then
        { a with feedback := some feedback, feedbackRequested := true, lastModified := now }
      else a)
    lastActivity := now }

/-- `setCurrentTask`: moves the resume cursor. -/
def setCurrentTask (now : Nat) (p : Progress) (loId taskId : String) : Progress :=
  { p with currentLO := loId, currentTask := taskId, lastActivity := now }

/-- `getNextTask` from `useProgress.ts` (lines 533-551). Learning outcomes are
modelled as `(loId, taskIds)` pairs; the task map keeps the first occurrence
of each task id; `findIndex` yields `-1` when the current task is absent and
the returned element is `allTasks[currentIndex + 1]` (`null` → `none`). -/
def nextTaskSeq (learningOutcomes : List (String × List String)) :
    List (String × String) :=
  dedupFirst Prod.snd
    ((learningOutcomes.map (fun lo => lo.2.map (fun tid => (lo.1, tid)))).flatten)

/-- The store operation `getNextTask(learningOutcomes)`. -/
def getNextTask (p : Progress) (learningOutcomes : List (String × List String)) :
    Option (String × String) :=
  let allTasks := nextTaskSeq learningOutcomes
  let currentIndex : Int :=
    match allTasks.findIdx? (fun t => t.2 == p.currentTask) with
    | some i => (i : Int)
    | none => -1
  allTasks[(currentIndex + 1).toNat]?

/-! ## Analytics engine (`OverallProgress.tsx`, first revision) -/

/-- The per-task analytics record assembled by `calculateStats` (the fields
the claims are about). -/
structure AnalyticsTask where
  taskId : String
  unitId : String
  status : TaskStatus
  completedDate : Option Nat
deriving DecidableEq, Repr

/-- Status derivation inside `calculateStats` (lines 90-95): `not-started`
without an answer, else `completed`/`in-progress` by `isGoodEnough`. -/
def analyticsStatus (answer : Option StudentAnswer) : TaskStatus :=
  match answer with
  | none => .notStarted
  | some a => if a.isGoodEnough then .completed else .inProgress

/-- `answer.statusHistory.reverse().find(change => change.status === 'completed')`:
the most recent `completed` entry. -/
def lastCompletedEntry (hist : List TaskStatusChange) : Option TaskStatusChange :=
  hist.reverse.find? (fun c => c.status == .completed)

/-- Completion-date resolution from `calculateStats` (lines 97-111): prefer the
most recent `completed` status-history entry; if none was found, fall back to
`submissionDate` for good-enough answers. -/
def resolveCompletedDate (a : StudentAnswer) : Option Nat :=
  let fromHistory : Option Nat :=
    if a.statusHistory.length > 0 then
      (lastCompletedEntry a.statusHistory).map (fun c => c.timestamp)
    else none
  match fromHistory with
  | some t => some t
  | none => if a.isGoodEnough then some a.submissionDate else none

/-- One unit as `calculateStats` sees it: the unit's learning outcomes (ids of
`outcome_tasks` per outcome) plus the answers of its persisted progress (an
absent progress record behaves as an empty answer list). -/
structure UnitInput where
  unitId : String
  learningOutcomes : List (String × List String)
  answers : List StudentAnswer
deriving Repr

/-- Task collection for one unit (lines 82-135): deduplicate task ids across
learning outcomes via the `uniqueTasks` set, look up each task's answer, derive
status and completion date. -/
def collectUnitTasks (u : UnitInput) : List AnalyticsTask :=
  (dedupFirst id ((u.learningOutcomes.map Prod.snd).flatten)).map (fun tid =>
    let answer := u.answers.find? (fun a => a.taskId == tid)
    { taskId := tid
      unitId := u.unitId
      status := analyticsStatus answer
      completedDate :=
        match answer with
        | some a => resolveCompletedDate a
        | none => none })

/-- `allTasks` accumulated over all units. -/
def allAnalyticsTasks (units : List UnitInput) : List AnalyticsTask :=
  (units.map collectUnitTasks).flatten

/-- `totalTasks = allTasks.length`. -/
def totalTasksCount (units : List UnitInput) : Nat :=
  (allAnalyticsTasks units).length

/-- `completedTasks = allTasks.filter(t => t.status === 'completed').length`. -/
def completedTasksCount (units : List UnitInput) : Nat :=
  ((allAnalyticsTasks units).filter (fun t => t.status == .completed)).length

/-- `completionRate = totalTasks > 0 ? (completedTasks / totalTasks) * 100 : 0`
(line 143), computed exactly over the rationals. -/
def completionRate (units : List UnitInput) : ℚ :=
  if totalTasksCount units > 0 then
    ((completedTasksCount units : ℚ) / (totalTasksCount units : ℚ)) * 100
  else 0

/-! ## Current streak (`calculateStreak`, lines 198-238)

Timestamps are milliseconds; `setHours(0,0,0,0)` truncates a timestamp to its
day, so two truncated dates are equal exactly when their day indices are, and
`Math.floor((a - b) / dayMs)` on truncated dates is the difference of their
day indices. The descending sort of the completed tasks does not affect the
`some`-style membership tests, so it is dropped. -/

def msPerDay : Nat := 1000 * 60 * 60 * 24

/-- Day index of a timestamp (its local-midnight truncation, counted in days). -/
def dayIndex (t : Nat) : Int := (t : Int) / (msPerDay : Int)

/-- The resolved completion dates entering the streak computation:
`tasks.filter(t => t.status === 'completed' && t.completedDate)`. -/
def completedDatesOf (tasks : List AnalyticsTask) : List Nat :=
  tasks.filterMap (fun t => if t.status == .completed then t.completedDate else none)

/-- Does some completion fall on day `d`? (`taskDate.getTime() === checkDate.getTime()`
after truncation.) -/
def activeOnDay (dates : List Nat) (d : Int) : Bool :=
  dates.any (fun t => dayIndex t == d)

/-- `hasRecentActivity`: some completion with `daysDiff <= 1` from today
(future completions give a negative difference and also pass). -/
def hasRecentActivity (now : Nat) (dates : List Nat) : Bool :=
  dates.any (fun t => dayIndex now - dayIndex t ≤ 1)

/-- The `for (let i = 0; i < 30; i++)` loop of `calculateStreak`, with the
remaining iteration count as explicit fuel (`fuel = 30 - i`): count a day with
activity, break at a day without activity unless it is today (`i = 0`). -/
def streakLoop (active : Nat → Bool) : Nat → Nat → Nat → Nat
  | 0, _, streak => streak
  | fuel + 1, i, streak =>
      if active i then streakLoop active fuel (i + 1) (streak + 1)
      else if i > 0 then streak
      else streakLoop active fuel 1 streak

/-- `calculateStreak` over the resolved completion dates. -/
def calculateStreak (now : Nat) (dates : List Nat) : Nat :=
  if dates.isEmpty then 0
  else if hasRecentActivity now dates then
    streakLoop (fun i => activeOnDay dates (dayIndex now - (i : Int))) 30 0 0
  else 0

/-- `calculateStreak` as called on the collected analytics tasks. -/
def calculateStreakOfTasks (now : Nat) (tasks : List AnalyticsTask) : Nat :=
  calculateStreak now (completedDatesOf tasks)

/-! ## Export/import transfer format (`storageExport.ts`, first revision)

The browser key-value store is modelled by association lists: the
`learning-assistant-unit-list` value, the `learning-assistant-units` map
(unit id to unit content, an opaque payload type `υ`), and one
`learning-assistant-progress-<unitId>` record per unit. `lookupKV` is
`localStorage.getItem` (first matching key), `setKV` is `setItem` (replace
or append). JS objects keep insertion order, matched here by building the
export's `units` entries in unit-list order. -/

/-- `UnitSummary` from `types/Unit.ts`. -/
structure UnitSummaryT where
  id : String
  title : String
  totalTasks : Nat
  completedTasks : Nat
  lastActivity : Option Nat
  dateAdded : Nat
deriving DecidableEq, Repr

/-- Look up a key in an association list (first match). -/
def lookupKV (l : List (String × β)) (k : String) : Option β :=
  (l.find? (fun e => e.1 == k)).map Prod.snd

/-- Set a key in an association list: replace the first matching entry in
place, or append when absent. -/
def setKV (l : List (String × β)) (k : String) (v : β) : List (String × β) :=
  if (l.find? (fun e => e.1 == k)).isSome then
    l.map (fun e => if e.1 == k then (k, v) else e)
  else l ++ [(k, v)]

/-- The serialized multi-unit browser-storage state the transfer format
reads and writes. -/
structure StorageState (υ : Type) where
  unitList : List UnitSummaryT
  units : List (String × υ)
  progress : List (String × Progress)

/-- One entry of `ExportedProgress.units`. -/
structure ExportEntry (υ : Type) where
  unitSummary : UnitSummaryT
  progress : Option Progress
  unitData : Option υ

/-- `ExportedProgress` from `storageExport.ts`. -/
structure ExportedProgress (υ : Type) where
  exportDate : Nat
  totalUnits : Nat
  units : List (String × ExportEntry υ)

/-- `exportAllProgress` (lines 15-48): snapshot every known unit's summary,
its progress record (`null` when absent) and its unit content
(`units[unitSummary.id] || null`). -/
def exportAllProgress (now : Nat) (s : StorageState υ) : ExportedProgress υ :=
  { exportDate := now
    totalUnits := s.unitList.length
    units := s.unitList.map (fun summ =>
      (summ.id,
       { unitSummary := summ
         progress := lookupKV s.progress summ.id
         unitData := lookupKV s.units summ.id })) }

/-- `importProgress` (lines 312-360): replace the unit list and units map from
the document, recompute each summary's `completedTasks` from the imported
progress (`unitProgress && unitProgress.completedTasks`), and write each
non-null progress record under its unit's key. -/
def importProgress (e : ExportedProgress υ) (s : StorageState υ) : StorageState υ :=
  let unitList := e.units.map (fun ent => ent.2.unitSummary)
  let unitsMap := e.units.filterMap (fun ent =>
    match ent.2.unitData with
    | some u => some (ent.1, u)
    | none => none)
  let updatedUnitList := unitList.map (fun summ =>
    match (lookupKV e.units summ.id).bind (fun ent => ent.progress) with
    | some prog => { summ with completedTasks := prog.completedTasks.length }
    | none => summ)
  let newProgress := e.units.foldl (fun acc ent =>
    match ent.2.progress with
    | some prog => setKV acc ent.1 prog
    | none => acc) s.progress
  { unitList := updatedUnitList
    units := unitsMap
    progress := newProgress }

/-! ## Specification-side reference definitions

These follow the specification's words (not the source) and exist only to be
compared against the embedded code. -/

/-- Spec wording (§3): `not-started` if no answer exists; `completed` if the
answer exists and `isGoodEnough` is true; otherwise `in-progress`. -/
def derivedStatusSpec (answer : Option StudentAnswer) : TaskStatus :=
  match answer with
  | none => .notStarted
  | some a => if a.isGoodEnough then .completed else .inProgress

/-- Spec wording for `markAsGoodEnough`: flag true gives `completed`; flag
false recomputes from content presence (`in-progress` when the trimmed
content is non-empty, `not-started` otherwise). -/
def markNewStatusSpec (a : StudentAnswer) (flag : Bool) : TaskStatus :=
  if flag then .completed
  else if trimmedNonEmpty a.content then .inProgress else .notStarted

/-- Spec wording for completion-date resolution: the timestamp of the most
recent `completed` entry of `statusHistory`; fall back to `submissionDate`
only when no history exists. -/
def resolveCompletedDateSpec (a : StudentAnswer) : Option Nat :=
  match lastCompletedEntry a.statusHistory with
  | some c => some c.timestamp
  | none => if a.statusHistory.isEmpty then some a.submissionDate else none

/-- Spec wording for the streak's consecutive count: the number of consecutive
days with at least one completion from day offset `i` backward, stopping at
the first day without a completion, within a window of `fuel` remaining days. -/
def runCountSpec (active : Nat → Bool) : Nat → Nat → Nat
  | 0, _ => 0
  | fuel + 1, i => if active i then runCountSpec active fuel (i + 1) + 1 else 0

/-- Spec wording for the current streak: `0` whenever no completion falls on
today or yesterday; otherwise the consecutive count anchored at today, with
today itself tolerated as an inactive anchor day, over a 30-day window. -/
def streakSpec (now : Nat) (dates : List Nat) : Nat :=
  let active := fun (i : Nat) => activeOnDay dates (dayIndex now - (i : Int))
  if active 0 then runCountSpec active 30 0
  else if active 1 then runCountSpec active 29 1
  else 0

/-! ## Operation sequences over the progress store -/

/-- The store mutations the history/version claims quantify over. -/
inductive StoreOp where
  | update (taskId content : String)
  | markGE (taskId : String) (flag : Bool)
deriving DecidableEq, Repr

/-- Apply one operation at a given clock value. -/
def applyOp (now : Nat) (p : Progress) : StoreOp → Progress
  | .update tid c => updateAnswer now p tid c
  | .markGE tid f => markAsGoodEnough now p tid f

/-- Apply a timestamped operation sequence, oldest first. -/
def applyOps (p : Progress) : List (Nat × StoreOp) → Progress
  | [] => p
  | (t, op) :: rest => applyOps (applyOp t p op) rest

/-- The status an operation records in a history entry for its target task:
`updateAnswer` computes `completed` for an already-good-enough answer and
otherwise derives from trimmed-content presence; `markAsGoodEnough` maps the
flag to `completed`/`in-progress`. -/
def opNewStatus (p : Progress) : StoreOp → TaskStatus
  | .update tid c =>
      match findAnswer p tid with
      | some a =>
          if a.isGoodEnough then .completed
          else if trimmedNonEmpty c then .inProgress else .notStarted
      | none => if trimmedNonEmpty c then .inProgress else .notStarted
  | .markGE _ f => if f then .completed else .inProgress

/-- The task an operation targets. -/
def StoreOp.target : StoreOp → String
  | .update tid _ => tid
  | .markGE tid _ => tid

/-- List extension: `l₂` equals `l₁` with entries appended at the end. -/
def ListExtends (l₁ l₂ : List α) : Prop :=
  ∃ t, l₂ = l₁ ++ t

/-- Answers-wise history extension: no answer is removed, answers keep their
positions, and each existing answer's history is only ever appended to. -/
def HistExtend (p q : Progress) : Prop :=
  p.answers.length ≤ q.answers.length ∧
  ∀ i : Nat, (h1 : i < p.answers.length) → (h2 : i < q.answers.length) →
    ListExtends (p.answers.get ⟨i, h1⟩).statusHistory
      (q.answers.get ⟨i, h2⟩).statusHistory

/-- All history timestamps of `p` are sorted and bounded by `b`. -/
def HistSortedLE (p : Progress) (b : Nat) : Prop :=
  ∀ a ∈ p.answers,
    a.statusHistory.Pairwise (fun c d => c.timestamp ≤ d.timestamp) ∧
    ∀ c ∈ a.statusHistory, c.timestamp ≤ b

/-- The clock values of a timestamped operation sequence never decrease and
start no earlier than `b`. -/
def timesMono : Nat → List (Nat × StoreOp) → Bool
  | _, [] => true
  | b, (t, _) :: rest => b ≤ t && timesMono t rest

/-! ## Concrete fixtures used by witnesses and counterexamples -/

/-- A good-enough answer whose non-empty status history holds no `completed`
entry (such a record is representable in storage and importable verbatim). -/
def answerNoCompletedEntry : StudentAnswer :=
  { taskId := "t1"
    content := "x"
    submissionDate := 10
    lastModified := 20
    version := 1
    isGoodEnough := true
    feedbackRequested := false
    feedback := none
    statusHistory := [{ timestamp := 20, status := .inProgress,
                        previousStatus := .notStarted }] }

/-- A good-enough answer with blank content, for the `markAsGoodEnough(false)`
status recomputation check. -/
def answerBlankGoodEnough : StudentAnswer :=
  { taskId := "t1"
    content := ""
    submissionDate := 0
    lastModified := 0
    version := 1
    isGoodEnough := true
    feedbackRequested := false
    feedback := none
    statusHistory := [{ timestamp := 0, status := .completed,
                        previousStatus := .notStarted }] }

/-- A progress aggregate holding `answerBlankGoodEnough`. -/
def progressBlankGoodEnough : Progress :=
  { unitId := "u"
    currentLO := "LO1"
    currentTask := "1.1"
    completedTasks := []
    answers := [answerBlankGoodEnough]
    startDate := 0
    lastActivity := 0 }

/-- A progress aggregate holding a blank-content, not-good-enough answer. -/
def progressBlankAnswer : Progress :=
  { unitId := "u"
    currentLO := "LO1"
    currentTask := "1.1"
    completedTasks := []
    answers := [{ taskId := "t1", content := "", submissionDate := 0,
                  lastModified := 0, version := 1, isGoodEnough := false,
                  feedbackRequested := false, feedback := none,
                  statusHistory := [] }]
    startDate := 0
    lastActivity := 0 }

/-- One in-progress answer with content. -/
def answerDraft : StudentAnswer :=
  { taskId := "t1", content := "draft", submissionDate := 1,
    lastModified := 1, version := 1, isGoodEnough := false,
    feedbackRequested := false, feedback := none,
    statusHistory := [{ timestamp := 1, status := .inProgress,
                        previousStatus := .notStarted }] }

/-- A progress aggregate with one in-progress answer with content. -/
def progressOneDraft : Progress :=
  { unitId := "u"
    currentLO := "LO1"
    currentTask := "1.1"
    completedTasks := []
    answers := [answerDraft]
    startDate := 0
    lastActivity := 1 }

/-- A one-unit storage state for the export/import round trip. -/
def storageStateEx : StorageState Nat :=
  { unitList := [{ id := "u1", title := "Unit 1", totalTasks := 3,
                   completedTasks := 0, lastActivity := none, dateAdded := 0 }]
    units := [("u1", 7)]
    progress := [("u1", { unitId := "u1", currentLO := "LO1",
                          currentTask := "1.1",
                          completedTasks := ["a", "b"], answers := [],
                          startDate := 0, lastActivity := 0 })] }

/-! ## Helper lemmas -/

theorem find?_map_upd (l : List StudentAnswer) (tid : String)
    (g : StudentAnswer → StudentAnswer)
    (hg : ∀ a, a.taskId = tid → (g a).taskId = tid) :
    (l.map (fun a => if a.taskId == tid then g a else a)).find?
        (fun a => a.taskId == tid) =
      (l.find? (fun a => a.taskId == tid)).map g := by
  induction l with
  | nil => rfl
  | cons a l ih =>
      by_cases h : a.taskId = tid
      · have hb : (a.taskId == tid) = true := beq_iff_eq.mpr h
        have hgb : ((g a).taskId == tid) = true := beq_iff_eq.mpr (hg a h)
        simp only [List.map_cons, List.find?_cons, hb, hgb, if_true, cond_true]
        rfl
      · have hb : (a.taskId == tid) = false := by simp [h]
        simp only [List.map_cons, List.find?_cons, hb, Bool.false_eq_true,
          if_neg, ite_false, cond_false, ih]

theorem find?_map_upd_ne (l : List StudentAnswer) (tid tid2 : String)
    (g : StudentAnswer → StudentAnswer)
    (hg : ∀ a, a.taskId = tid → (g a).taskId = tid) (hne : tid2 ≠ tid) :
    (l.map (fun a => if a.taskId == tid then g a else a)).find?
        (fun a => a.taskId == tid2) =
      l.find? (fun a => a.taskId == tid2) := by
  induction l with
  | nil => rfl
  | cons a l ih =>
      by_cases h : a.taskId = tid
      · have hb : (a.taskId == tid) = true := beq_iff_eq.mpr h
        have h2 : (a.taskId == tid2) = false := by
          simp only [beq_eq_false_iff_ne, h]; exact fun hc => hne hc.symm
        have h3 : ((g a).taskId == tid2) = false := by
          simp only [beq_eq_false_iff_ne, hg a h]; exact fun hc => hne hc.symm
        simp only [List.map_cons, List.find?_cons, hb, h2, h3, if_true,
          Bool.false_eq_true, if_neg, ite_false, cond_false, ih]
      · have hb : (a.taskId == tid) = false := by simp [h]
        simp only [List.map_cons, List.find?_cons, hb, Bool.false_eq_true,
          if_neg, ite_false, cond_false, ih]

theorem find?_append_of_none (l₁ l₂ : List α) (p : α → Bool)
    (h : l₁.find? p = none) : (l₁ ++ l₂).find? p = l₂.find? p := by
  induction l₁ with
  | nil => rfl
  | cons a l ih =>
      cases hp : p a with
      | true => simp [List.find?_cons, hp] at h
      | false =>
          simp only [List.find?_cons, hp, cond_false] at h
          simp only [List.cons_append, List.find?_cons, hp, cond_false, ih h]

theorem updateAnswer_found (now : Nat) (p : Progress) (tid c : String)
    (a : StudentAnswer) (h : findAnswer p tid = some a) :
    findAnswer (updateAnswer now p tid c) tid = some
      { a with
        content := c
        lastModified := now
        version := a.version + 1
        statusHistory := a.statusHistory ++
          (if getTaskStatus p tid ≠ opNewStatus p (.update tid c) then
            [{ timestamp := now, status := opNewStatus p (.update tid c),
               previousStatus := getTaskStatus p tid }]
          else []) } := by
  have h2 : p.answers.find? (fun x => x.taskId == tid) = some a := h
  simp only [updateAnswer, opNewStatus, h]
  simp only [findAnswer]
  rw [find?_map_upd]
  · rw [h2]
    by_cases hc : getTaskStatus p tid =
        (if a.isGoodEnough then TaskStatus.completed
         else if trimmedNonEmpty c then TaskStatus.inProgress else TaskStatus.notStarted)
    · simp [hc]
    · simp [hc]
  · intro x hx
    exact hx

theorem updateAnswer_not_found (now : Nat) (p : Progress) (tid c : String)
    (h : findAnswer p tid = none) :
    findAnswer (updateAnswer now p tid c) tid = some
      { taskId := tid
        content := c
        submissionDate := now
        lastModified := now
        version := 1
        isGoodEnough := false
        feedbackRequested := false
        feedback := none
        statusHistory :=
          if TaskStatus.notStarted ≠ opNewStatus p (.update tid c) then
            [{ timestamp := now, status := opNewStatus p (.update tid c),
               previousStatus := TaskStatus.notStarted }]
          else [] } := by
  have h2 : p.answers.find? (fun x => x.taskId == tid) = none := h
  have hstat : getTaskStatus p tid = .notStarted := by
    simp only [getTaskStatus, h]
  simp only [updateAnswer, opNewStatus, h, hstat]
  simp only [findAnswer]
  rw [find?_append_of_none _ _ _ h2]
  by_cases hc : trimmedNonEmpty c = true
  · simp [List.find?_cons, hc]
  · simp [List.find?_cons, hc]

theorem markAsGoodEnough_found (now : Nat) (p : Progress) (tid : String)
    (flag : Bool) (a : StudentAnswer) (h : findAnswer p tid = some a) :
    findAnswer (markAsGoodEnough now p tid flag) tid = some
      (if getTaskStatus p tid ≠ (if flag then TaskStatus.completed else TaskStatus.inProgress)
       then { a with
              isGoodEnough := flag
              lastModified := now
              statusHistory := a.statusHistory ++
                [{ timestamp := now
                   status := if flag then TaskStatus.completed else TaskStatus.inProgress
                   previousStatus := getTaskStatus p tid }] }
       else { a with isGoodEnough := flag }) := by
  have h2 : p.answers.find? (fun x => x.taskId == tid) = some a := h
  by_cases hc : getTaskStatus p tid = (if flag then TaskStatus.completed else TaskStatus.inProgress)
  · simp only [markAsGoodEnough, addStatusChange, if_pos hc]
    simp only [findAnswer]
    rw [find?_map_upd]
    · rw [h2]
      simp [hc]
    · intro x hx
      exact hx
  · simp only [markAsGoodEnough, addStatusChange, if_neg hc]
    simp only [findAnswer]
    rw [find?_map_upd]
    · rw [find?_map_upd]
      · rw [h2]
        simp [hc]
      · intro x hx
        exact hx
    · intro x hx
      exact hx

theorem markAsGoodEnough_not_found (now : Nat) (p : Progress) (tid : String)
    (flag : Bool) (h : findAnswer p tid = none) :
    markAsGoodEnough now p tid flag = { p with lastActivity := now } := by
  have hall : ∀ a ∈ p.answers, (a.taskId == tid) = false := by
    intro a ha
    have hx := List.find?_eq_none.mp h a ha
    simpa using hx
  have hmap : ∀ (g : StudentAnswer → StudentAnswer) (l : List StudentAnswer),
      (∀ a ∈ l, (a.taskId == tid) = false) →
      l.map (fun a => if a.taskId == tid then g a else a) = l := by
    intro g l hl
    calc l.map (fun a => if a.taskId == tid then g a else a)
        = l.map (fun a => a) := List.map_congr_left (fun a ha => by simp [hl a ha])
      _ = l := by simp
  have hstat : getTaskStatus p tid = .notStarted := by
    simp only [getTaskStatus, h]
  cases flag with
  | true =>
      simp only [markAsGoodEnough, addStatusChange, hstat]
      rw [if_neg (by decide)]
      simp only [hmap _ _ hall]
  | false =>
      simp only [markAsGoodEnough, addStatusChange, hstat]
      rw [if_neg (by decide)]
      simp only [hmap _ _ hall]

theorem versions_markAsGoodEnough (now : Nat) (p : Progress) (tid : String)
    (flag : Bool) :
    (markAsGoodEnough now p tid flag).answers.map (fun a => a.version) =
      p.answers.map (fun a => a.version) := by
  by_cases hc : getTaskStatus p tid = (if flag then TaskStatus.completed else TaskStatus.inProgress)
  · simp only [markAsGoodEnough, addStatusChange, if_pos hc, List.map_map]
    apply List.map_congr_left
    intro a ha
    by_cases hx : a.taskId = tid <;> simp [hx]
  · simp only [markAsGoodEnough, addStatusChange, if_neg hc, List.map_map]
    apply List.map_congr_left
    intro a ha
    by_cases hx : a.taskId = tid <;> simp [hx]

theorem versions_addFeedback (now : Nat) (p : Progress) (tid fb : String) :
    (addFeedback now p tid fb).answers.map (fun a => a.version) =
      p.answers.map (fun a => a.version) := by
  simp only [addFeedback, List.map_map]
  apply List.map_congr_left
  intro a ha
  by_cases hx : a.taskId = tid <;> simp [hx]

theorem listExtends_refl (l : List α) : ListExtends l l :=
  ⟨[], by simp⟩

theorem listExtends_trans {l₁ l₂ l₃ : List α}
    (h1 : ListExtends l₁ l₂) (h2 : ListExtends l₂ l₃) : ListExtends l₁ l₃ := by
  obtain ⟨t, rfl⟩ := h1
  obtain ⟨u, rfl⟩ := h2
  exact ⟨t ++ u, by simp⟩

theorem listExtends_match (hist : List TaskStatusChange)
    (sc : Option TaskStatusChange) :
    ListExtends hist
      (match sc with
       | some c => hist ++ [c]
       | none => hist) := by
  cases sc with
  | none => exact listExtends_refl _
  | some c => exact ⟨[c], rfl⟩

theorem histExtend_refl (p : Progress) : HistExtend p p :=
  ⟨le_refl _, fun _ _ _ => listExtends_refl _⟩

theorem histExtend_trans {p q r : Progress}
    (h1 : HistExtend p q) (h2 : HistExtend q r) : HistExtend p r := by
  refine ⟨le_trans h1.1 h2.1, fun i hi hr => ?_⟩
  have hq : i < q.answers.length := lt_of_lt_of_le hi h1.1
  exact listExtends_trans (h1.2 i hi hq) (h2.2 i hq hr)

theorem histExtend_of_map (p q : Progress) {f : StudentAnswer → StudentAnswer}
    (hq : q.answers = p.answers.map f)
    (hf : ∀ a, ListExtends a.statusHistory (f a).statusHistory) :
    HistExtend p q := by
  refine ⟨by rw [hq, List.length_map], fun i h1 h2 => ?_⟩
  have h2' : i < (p.answers.map f).length := by rw [hq] at h2; exact h2
  have : q.answers.get ⟨i, h2⟩ = f (p.answers.get ⟨i, h1⟩) := by
    simp only [List.get_eq_getElem, hq, List.getElem_map]
  rw [this]
  exact hf _

theorem histExtend_of_append (p q : Progress) {l₂ : List StudentAnswer}
    (hq : q.answers = p.answers ++ l₂) : HistExtend p q := by
  refine ⟨by rw [hq, List.length_append]; omega, fun i h1 h2 => ?_⟩
  have : q.answers.get ⟨i, h2⟩ = p.answers.get ⟨i, h1⟩ := by
    simp only [List.get_eq_getElem, hq]
    exact List.getElem_append_left h1
  rw [this]
  exact listExtends_refl _

theorem histExtend_applyOp (now : Nat) (p : Progress) (op : StoreOp) :
    HistExtend p (applyOp now p op) := by
  cases op with
  | update tid c =>
      cases hfa : findAnswer p tid with
      | some a =>
          apply histExtend_of_map
          · simp only [applyOp, updateAnswer, hfa]
            rfl
          · intro x
            by_cases hx : (x.taskId == tid) = true
            · simp only [hx, if_true]
              exact listExtends_match _ _
            · simp only [hx, Bool.false_eq_true, if_neg, ite_false]
              exact listExtends_refl _
      | none =>
          apply histExtend_of_append
          simp only [applyOp, updateAnswer, hfa]
          rfl
  | markGE tid flag =>
      by_cases hc : getTaskStatus p tid = (if flag then TaskStatus.completed else TaskStatus.inProgress)
      · apply histExtend_of_map
        · simp only [applyOp, markAsGoodEnough, addStatusChange, if_pos hc]
          rfl
        · intro x
          by_cases hx : (x.taskId == tid) = true
          · simp only [hx, if_true]
            exact listExtends_refl _
          · simp only [hx, Bool.false_eq_true, if_neg, ite_false]
            exact listExtends_refl _
      · apply histExtend_of_map
        · simp only [applyOp, markAsGoodEnough, addStatusChange, if_neg hc, List.map_map]
          rfl
        · intro x
          by_cases hx : (x.taskId == tid) = true
          · simp only [Function.comp_apply, hx, if_true]
            exact ⟨_, rfl⟩
          · simp only [Function.comp_apply, hx, Bool.false_eq_true, if_neg, ite_false]
            exact listExtends_refl _

theorem histExtend_applyOps (p : Progress) (ops : List (Nat × StoreOp)) :
    HistExtend p (applyOps p ops) := by
  induction ops generalizing p with
  | nil => exact histExtend_refl p
  | cons top rest ih =>
      exact histExtend_trans (histExtend_applyOp top.1 p top.2) (ih (applyOp top.1 p top.2))

/-- Appending one entry stamped `now` to a sorted history bounded by `b ≤ now`
keeps it sorted and bounded by `now`. -/
theorem sorted_append_now (hist : List TaskStatusChange) (b now : Nat)
    (hb : b ≤ now) (ch : TaskStatusChange) (hts : ch.timestamp = now)
    (h1 : hist.Pairwise (fun c d => c.timestamp ≤ d.timestamp))
    (h2 : ∀ c ∈ hist, c.timestamp ≤ b) :
    (hist ++ [ch]).Pairwise (fun c d => c.timestamp ≤ d.timestamp) ∧
      ∀ c ∈ hist ++ [ch], c.timestamp ≤ now := by
  constructor
  · rw [List.pairwise_append]
    refine ⟨h1, List.pairwise_singleton _ _, ?_⟩
    intro x hx y hy
    rw [List.mem_singleton] at hy
    subst hy
    rw [hts]
    exact le_trans (h2 x hx) hb
  · intro c hc
    rcases List.mem_append.mp hc with hc | hc
    · exact le_trans (h2 c hc) hb
    · rw [List.mem_singleton] at hc
      subst hc
      rw [hts]

/-- Step preservation of history sortedness under one mapped write. -/
theorem histSorted_of_map {p q : Progress} {b now : Nat}
    {f : StudentAnswer → StudentAnswer}
    (hb : b ≤ now) (hs : HistSortedLE p b)
    (hq : q.answers = p.answers.map f)
    (hf : ∀ a, (f a).statusHistory = a.statusHistory ∨
      ∃ ch : TaskStatusChange, ch.timestamp = now ∧
        (f a).statusHistory = a.statusHistory ++ [ch]) :
    HistSortedLE q now := by
  intro a2 ha2
  rw [hq] at ha2
  obtain ⟨a, ha, rfl⟩ := List.mem_map.mp ha2
  obtain ⟨hp, hbd⟩ := hs a ha
  rcases hf a with heq | ⟨ch, hts, heq⟩
  · rw [heq]
    exact ⟨hp, fun c hc => le_trans (hbd c hc) hb⟩
  · rw [heq]
    exact sorted_append_now _ _ _ hb _ hts hp hbd

/-- One store operation at `now ≥ b` preserves sorted, bounded histories. -/
theorem histSorted_applyOp (p : Progress) (b now : Nat) (hb : b ≤ now)
    (op : StoreOp) (hs : HistSortedLE p b) :
    HistSortedLE (applyOp now p op) now := by
  cases op with
  | update tid c =>
      cases hfa : findAnswer p tid with
      | some a =>
          apply histSorted_of_map hb hs
          · simp only [applyOp, updateAnswer, hfa]
            rfl
          · intro x
            by_cases hx : (x.taskId == tid) = true
            · by_cases hcond : getTaskStatus p tid ≠
                  (if a.isGoodEnough then TaskStatus.completed
                   else if trimmedNonEmpty c then TaskStatus.inProgress
                   else TaskStatus.notStarted)
              · simp only [hx, if_true, if_pos hcond]
                right
                exact ⟨_, rfl, rfl⟩
              · simp only [hx, if_true, if_neg hcond]
                left
                trivial
            · simp only [hx, Bool.false_eq_true, if_neg, ite_false]
              left
              trivial
      | none =>
          intro a2 ha2
          simp only [applyOp, updateAnswer, hfa] at ha2
          rcases List.mem_append.mp ha2 with ha2 | ha2
          · obtain ⟨hp, hbd⟩ := hs a2 ha2
            exact ⟨hp, fun ch hc => le_trans (hbd ch hc) hb⟩
          · rw [List.mem_singleton] at ha2
            subst ha2
            by_cases hcond : getTaskStatus p tid ≠
                (if trimmedNonEmpty c then TaskStatus.inProgress
                 else TaskStatus.notStarted)
            · constructor <;> simp [hcond]
            · constructor <;> simp [hcond]
  | markGE tid flag =>
      by_cases hc : getTaskStatus p tid =
          (if flag then TaskStatus.completed else TaskStatus.inProgress)
      · apply histSorted_of_map hb hs
        · simp only [applyOp, markAsGoodEnough, addStatusChange, if_pos hc]
          rfl
        · intro x
          by_cases hx : (x.taskId == tid) = true
          · simp only [hx, if_true]
            left
            trivial
          · simp only [hx, Bool.false_eq_true, if_neg, ite_false]
            left
            trivial
      · have h1 : HistSortedLE (addStatusChange now p tid
            (if flag then TaskStatus.completed else TaskStatus.inProgress)) now := by
          apply histSorted_of_map hb hs
          · simp only [addStatusChange, if_neg hc]
            rfl
          · intro x
            by_cases hx : (x.taskId == tid) = true
            · simp only [hx, if_true]
              right
              exact ⟨_, rfl, rfl⟩
            · simp only [hx, Bool.false_eq_true, if_neg, ite_false]
              left
              trivial
        apply histSorted_of_map (le_refl now) h1
        · simp only [applyOp, markAsGoodEnough]
          rfl
        · intro x
          by_cases hx : (x.taskId == tid) = true
          · simp only [hx, if_true]
            left
            trivial
          · simp only [hx, Bool.false_eq_true, if_neg, ite_false]
            left
            trivial

/-- Sequence preservation: monotone clocks keep all histories sorted. -/
theorem histSorted_applyOps (p : Progress) (b : Nat) (ops : List (Nat × StoreOp))
    (hs : HistSortedLE p b) (ht : timesMono b ops = true) :
    ∃ b2, HistSortedLE (applyOps p ops) b2 := by
  induction ops generalizing p b with
  | nil => exact ⟨b, hs⟩
  | cons top rest ih =>
      obtain ⟨t, op⟩ := top
      simp only [timesMono, Bool.and_eq_true, decide_eq_true_eq] at ht
      exact ih (applyOp t p op) t (histSorted_applyOp p b t ht.1 op hs) ht.2

theorem streakLoop_eq_runCount (active : Nat → Bool) :
    ∀ (fuel i s : Nat), 1 ≤ i →
      streakLoop active fuel i s = s + runCountSpec active fuel i := by
  intro fuel
  induction fuel with
  | zero => intro i s _; rfl
  | succ fuel ih =>
      intro i s hi
      simp only [streakLoop, runCountSpec]
      cases hac : active i with
      | true =>
          rw [ih (i + 1) (s + 1) (by omega)]
          simp [Nat.add_assoc, Nat.add_comm 1]
      | false =>
          rw [if_pos (by omega : i > 0)]
          simp

theorem active_imp_recent (now : Nat) (dates : List Nat) (i : Nat) (hi : i ≤ 1)
    (h : activeOnDay dates (dayIndex now - (i : Int)) = true) :
    hasRecentActivity now dates = true := by
  simp only [activeOnDay, List.any_eq_true, beq_iff_eq] at h
  obtain ⟨t, ht, heq⟩ := h
  simp only [hasRecentActivity, List.any_eq_true, decide_eq_true_eq]
  refine ⟨t, ht, ?_⟩
  rw [heq]
  omega

theorem streakLoop_succ (active : Nat → Bool) (fuel i s : Nat) :
    streakLoop active (fuel + 1) i s =
      if active i then streakLoop active fuel (i + 1) (s + 1)
      else if i > 0 then s else streakLoop active fuel 1 s := rfl

theorem runCountSpec_succ (active : Nat → Bool) (fuel i : Nat) :
    runCountSpec active (fuel + 1) i =
      if active i then runCountSpec active fuel (i + 1) + 1 else 0 := rfl

theorem streakLoop_30_eq (active : Nat → Bool) :
    streakLoop active 30 0 0 =
      (if active 0 then runCountSpec active 30 0
       else if active 1 then runCountSpec active 29 1
       else 0) := by
  have h1 : streakLoop active 30 0 0 =
      if active 0 then streakLoop active 29 1 1 else streakLoop active 29 1 0 := by
    rw [show streakLoop active 30 0 0 = streakLoop active (29 + 1) 0 0 from rfl,
      streakLoop_succ]
    by_cases h : active 0 = true
    · rw [if_pos h, if_pos h]
    · rw [if_neg h, if_neg h, if_neg (by omega : ¬(0 > 0))]
  rw [h1]
  by_cases h0 : active 0 = true
  · rw [if_pos h0, if_pos h0, streakLoop_eq_runCount active 29 1 1 (le_refl 1)]
    rw [show runCountSpec active 30 0 = runCountSpec active (29 + 1) 0 from rfl,
      runCountSpec_succ active 29 0, if_pos h0]
    simp only [Nat.zero_add]
    omega
  · rw [if_neg h0, if_neg h0, streakLoop_eq_runCount active 29 1 0 (le_refl 1),
      Nat.zero_add]
    by_cases ha1 : active 1 = true
    · rw [if_pos ha1]
    · rw [if_neg ha1]
      rw [show runCountSpec active 29 1 = runCountSpec active (28 + 1) 1 from rfl,
        runCountSpec_succ active 28 1, if_neg ha1]

theorem calculateStreak_eq_streakSpec (now : Nat) (dates : List Nat) :
    calculateStreak now dates = streakSpec now dates := by
  by_cases hemp : dates.isEmpty = true
  · obtain rfl : dates = [] := List.isEmpty_iff.mp hemp
    rfl
  · by_cases hrec : hasRecentActivity now dates = true
    · have hcode : calculateStreak now dates =
          streakLoop (fun i => activeOnDay dates (dayIndex now - (i : Int))) 30 0 0 := by
        simp only [calculateStreak]
        rw [if_neg hemp, if_pos hrec]
      rw [hcode, streakLoop_30_eq]
      simp only [streakSpec]
    · have hcode : calculateStreak now dates = 0 := by
        simp only [calculateStreak]
        rw [if_neg hemp, if_neg hrec]
      have h0 : activeOnDay dates (dayIndex now - ((0 : Nat) : Int)) = false := by
        cases h : activeOnDay dates (dayIndex now - ((0 : Nat) : Int)) with
        | true => exact absurd (active_imp_recent now dates 0 (by omega) h) hrec
        | false => rfl
      have h1 : activeOnDay dates (dayIndex now - ((1 : Nat) : Int)) = false := by
        cases h : activeOnDay dates (dayIndex now - ((1 : Nat) : Int)) with
        | true => exact absurd (active_imp_recent now dates 1 (le_refl 1) h) hrec
        | false => rfl
      rw [hcode]
      simp only [streakSpec]
      rw [if_neg (by simp only [h0]; decide), if_neg (by simp only [h1]; decide)]

theorem dedupFirstAux_not_mem_seen (key : α → String) :
    ∀ (l : List α) (seen : List String) (x : α),
      x ∈ dedupFirstAux key seen l → key x ∉ seen := by
  intro l
  induction l with
  | nil => intro seen x hx; simp [dedupFirstAux] at hx
  | cons y l ih =>
      intro seen x hx
      simp only [dedupFirstAux] at hx
      by_cases hy : key y ∈ seen
      · rw [if_pos hy] at hx
        exact ih seen x hx
      · rw [if_neg hy] at hx
        rcases List.mem_cons.mp hx with rfl | hx
        · exact hy
        · have := ih (key y :: seen) x hx
          exact fun hc => this (List.mem_cons_of_mem _ hc)

theorem dedupFirstAux_keys_nodup (key : α → String) :
    ∀ (l : List α) (seen : List String),
      ((dedupFirstAux key seen l).map key).Nodup := by
  intro l
  induction l with
  | nil => intro seen; simp [dedupFirstAux]
  | cons y l ih =>
      intro seen
      simp only [dedupFirstAux]
      by_cases hy : key y ∈ seen
      · rw [if_pos hy]
        exact ih seen
      · rw [if_neg hy]
        rw [List.map_cons, List.nodup_cons]
        constructor
        · intro hc
          obtain ⟨z, hz, hzk⟩ := List.mem_map.mp hc
          have := dedupFirstAux_not_mem_seen key l (key y :: seen) z hz
          exact this (by rw [hzk]; exact List.mem_cons_self _ _)
        · exact ih (key y :: seen)

theorem dedupFirst_keys_nodup (key : α → String) (l : List α) :
    ((dedupFirst key l).map key).Nodup :=
  dedupFirstAux_keys_nodup key l []

theorem getNextTask_not_found (p : Progress)
    (los : List (String × List String))
    (h : p.currentTask ∉ (nextTaskSeq los).map Prod.snd) :
    getNextTask p los = (nextTaskSeq los).head? := by
  have hfi : (nextTaskSeq los).findIdx? (fun t => t.2 == p.currentTask) = none := by
    rw [List.findIdx?_eq_none_iff]
    intro x hx
    exact beq_eq_false_iff_ne.mpr (fun he => h (List.mem_map.mpr ⟨x, hx, he⟩))
  simp only [getNextTask, hfi]
  rw [List.head?_eq_getElem?]
  norm_num

theorem getNextTask_none_iff (p : Progress)
    (los : List (String × List String)) :
    getNextTask p los = none ↔
      nextTaskSeq los = [] ∨
        (nextTaskSeq los).getLast?.map Prod.snd = some p.currentTask := by
  have hnd : ((nextTaskSeq los).map Prod.snd).Nodup :=
    dedupFirst_keys_nodup Prod.snd _
  cases hfi : (nextTaskSeq los).findIdx? (fun t => t.2 == p.currentTask) with
  | none =>
      simp only [getNextTask, hfi]
      constructor
      · intro h
        left
        have h0 : ((-1 : Int) + 1).toNat = 0 := by norm_num
        rw [h0] at h
        have := List.getElem?_eq_none_iff.mp h
        exact List.eq_nil_of_length_eq_zero (by omega)
      · rintro (hnil | hlast)
        · rw [hnil]
          rfl
        · exfalso
          have hfa := List.findIdx?_eq_none_iff.mp hfi
          obtain ⟨e, he, h2⟩ := Option.map_eq_some'.mp hlast
          have hmem : e ∈ nextTaskSeq los := List.mem_of_getLast?_eq_some he
          have := hfa e hmem
          rw [beq_eq_false_iff_ne] at this
          exact this h2
  | some i =>
      obtain ⟨hlen, hpi, hbefore⟩ := List.findIdx?_eq_some_iff_getElem.mp hfi
      simp only [getNextTask, hfi]
      have hcast : ((i : Int) + 1).toNat = i + 1 := by omega
      rw [hcast]
      have hsnd : ((nextTaskSeq los)[i]).2 = p.currentTask := beq_iff_eq.mp hpi
      constructor
      · intro h
        have hle : (nextTaskSeq los).length ≤ i + 1 := List.getElem?_eq_none_iff.mp h
        right
        rw [List.getLast?_eq_getElem?]
        have hieq : (nextTaskSeq los).length - 1 = i := by omega
        rw [hieq, List.getElem?_eq_getElem hlen, Option.map_some']
        rw [hsnd]
      · rintro (hnil | hlast)
        · rw [hnil] at hlen
          simp at hlen
        · rw [List.getLast?_eq_getElem?] at hlast
          have hlpos : (nextTaskSeq los).length - 1 < (nextTaskSeq los).length := by
            omega
          rw [List.getElem?_eq_getElem hlpos, Option.map_some'] at hlast
          have hieq : i = (nextTaskSeq los).length - 1 := by
            by_contra hne
            have hmi : i < ((nextTaskSeq los).map Prod.snd).length := by
              rw [List.length_map]
              exact hlen
            have hmj : (nextTaskSeq los).length - 1 <
                ((nextTaskSeq los).map Prod.snd).length := by
              rw [List.length_map]
              exact hlpos
            have heq2 : ((nextTaskSeq los).map Prod.snd)[i] =
                ((nextTaskSeq los).map Prod.snd)[(nextTaskSeq los).length - 1] := by
              rw [List.getElem_map, List.getElem_map, hsnd]
              rw [Option.some_inj] at hlast
              rw [hlast]
            exact hne (hnd.getElem_inj_iff.mp heq2)
          rw [List.getElem?_eq_none_iff]
          omega

theorem find?_append_of_some (l₁ l₂ : List α) (p : α → Bool) (a : α)
    (h : l₁.find? p = some a) : (l₁ ++ l₂).find? p = some a := by
  induction l₁ with
  | nil => simp [List.find?] at h
  | cons x l ih =>
      cases hp : p x with
      | true =>
          simp only [List.find?_cons, hp, cond_true] at h
          simp only [List.cons_append, List.find?_cons, hp, cond_true, h]
      | false =>
          simp only [List.find?_cons, hp, cond_false] at h
          simp only [List.cons_append, List.find?_cons, hp, cond_false, ih h]

theorem lookupKV_map_set (l : List (String × β)) (k k2 : String) (v : β) :
    lookupKV (l.map (fun e => if e.1 == k then (k, v) else e)) k2 =
      if k2 = k then (lookupKV l k).map (fun _ => v) else lookupKV l k2 := by
  induction l with
  | nil => by_cases h2 : k2 = k <;> simp [lookupKV, List.find?, h2]
  | cons e l ih =>
      obtain ⟨k1, w⟩ := e
      by_cases h1 : k1 = k
      · subst h1
        by_cases h2 : k2 = k1
        · subst h2
          simp [lookupKV, List.find?_cons]
        · have hb : (k1 == k2) = false := beq_eq_false_iff_ne.mpr (fun hc => h2 hc.symm)
          simp only [List.map_cons, beq_self_eq_true, if_true, lookupKV,
            List.find?_cons, hb, cond_false] at ih ⊢
          rw [if_neg h2] at ih ⊢
          exact ih
      · have hb1 : (k1 == k) = false := beq_eq_false_iff_ne.mpr h1
        by_cases h2 : k2 = k1
        · subst h2
          have hne : ¬(k2 = k) := fun hc => h1 hc
          simp only [List.map_cons, hb1, Bool.false_eq_true, if_neg, ite_false,
            lookupKV, List.find?_cons, beq_self_eq_true, cond_true,
            Option.map_some']
          rw [if_neg hne]
        · have hb2 : (k1 == k2) = false := beq_eq_false_iff_ne.mpr (fun hc => h2 hc.symm)
          simp only [List.map_cons, hb1, Bool.false_eq_true, if_neg, ite_false,
            lookupKV, List.find?_cons, hb2, cond_false] at ih ⊢
          exact ih

theorem lookupKV_setKV (l : List (String × β)) (k k2 : String) (v : β) :
    lookupKV (setKV l k v) k2 = if k2 = k then some v else lookupKV l k2 := by
  simp only [setKV]
  by_cases hp : (l.find? (fun e => e.1 == k)).isSome = true
  · rw [if_pos hp, lookupKV_map_set]
    by_cases h2 : k2 = k
    · rw [if_pos h2, if_pos h2]
      obtain ⟨e, he⟩ := Option.isSome_iff_exists.mp hp
      simp [lookupKV, he]
    · rw [if_neg h2, if_neg h2]
  · rw [if_neg hp]
    have hnone : l.find? (fun e => e.1 == k) = none := by
      cases h : l.find? (fun e => e.1 == k) with
      | none => rfl
      | some e => rw [h] at hp; simp at hp
    by_cases h2 : k2 = k
    · subst h2
      rw [if_pos rfl]
      simp [lookupKV, find?_append_of_none _ _ _ hnone, List.find?_cons]
    · rw [if_neg h2]
      cases h : l.find? (fun e => e.1 == k2) with
      | some e =>
          simp [lookupKV, find?_append_of_some _ _ _ _ h, h]
      | none =>
          have hb : (k == k2) = false := beq_eq_false_iff_ne.mpr (fun hc => h2 hc.symm)
          simp [lookupKV, find?_append_of_none _ _ _ h, h, List.find?_cons, hb]

theorem lookup_rebuilt_units {υ : Type} (units : List (String × υ))
    (pr : List (String × Progress)) (us : List UnitSummaryT) (k : String) :
    lookupKV ((us.map (fun summ => (summ.id,
        ({ unitSummary := summ
           progress := lookupKV pr summ.id
           unitData := lookupKV units summ.id } : ExportEntry υ)))).filterMap
        (fun ent => match ent.2.unitData with
          | some u => some (ent.1, u)
          | none => none)) k
      = if k ∈ us.map UnitSummaryT.id then lookupKV units k else none := by
  induction us with
  | nil => simp [lookupKV, List.find?]
  | cons summ us ih =>
      simp only [List.map_cons, List.filterMap_cons]
      cases hu : lookupKV units summ.id with
      | some u =>
          by_cases hk : k = summ.id
          · subst hk
            simp [lookupKV, List.find?_cons, hu]
            exact hu.symm
          · have hb : (summ.id == k) = false :=
              beq_eq_false_iff_ne.mpr (fun hc => hk hc.symm)
            simp only [lookupKV, List.find?_cons, hb, cond_false] at ih ⊢
            rw [ih]
            have hmem : (k ∈ summ.id :: us.map UnitSummaryT.id) ↔
                k ∈ us.map UnitSummaryT.id := by
              constructor
              · intro h
                rcases List.mem_cons.mp h with h | h
                · exact absurd h hk
                · exact h
              · exact List.mem_cons_of_mem _
            by_cases hm : k ∈ us.map UnitSummaryT.id
            · rw [if_pos hm, if_pos (hmem.mpr hm)]
            · rw [if_neg hm, if_neg (fun hc => hm (hmem.mp hc))]
      | none =>
          rw [ih]
          by_cases hk : k = summ.id
          · subst hk
            by_cases hm : summ.id ∈ us.map UnitSummaryT.id
            · rw [if_pos hm, if_pos (List.mem_cons_self _ _)]
            · rw [if_neg hm, if_pos (List.mem_cons_self _ _), hu]
          · by_cases hm : k ∈ us.map UnitSummaryT.id
            · rw [if_pos hm, if_pos (List.mem_cons_of_mem _ hm)]
            · rw [if_neg hm, if_neg ?_]
              intro hc
              rcases List.mem_cons.mp hc with h | h
              · exact hk h
              · exact hm h

theorem lookupKV_map_by_id {γ : Type _} (us : List UnitSummaryT)
    (f : UnitSummaryT → γ)
    (hnd : (us.map UnitSummaryT.id).Nodup) (summ : UnitSummaryT)
    (hmem : summ ∈ us) :
    lookupKV (us.map (fun x => (x.id, f x))) summ.id = some (f summ) := by
  induction us with
  | nil => cases hmem
  | cons a us ih =>
      rw [List.map_cons, List.nodup_cons] at hnd
      rcases List.mem_cons.mp hmem with rfl | hmem2
      · simp [lookupKV, List.find?_cons]
      · have hne : (a.id == summ.id) = false := by
          refine beq_eq_false_iff_ne.mpr (fun hc => hnd.1 ?_)
          rw [hc]
          exact List.mem_map.mpr ⟨summ, hmem2, rfl⟩
        simp only [List.map_cons, lookupKV, List.find?_cons, hne, cond_false] at ih ⊢
        exact ih hnd.2 hmem2

theorem lookup_progress_fold {υ : Type} (pr : List (String × Progress)) :
    ∀ (ents : List (String × ExportEntry υ)) (acc : List (String × Progress)),
      (∀ ent ∈ ents, ent.2.progress = lookupKV pr ent.1) →
      (∀ k, lookupKV acc k = lookupKV pr k) →
      ∀ k, lookupKV (ents.foldl (fun acc2 ent =>
          match ent.2.progress with
          | some prog => setKV acc2 ent.1 prog
          | none => acc2) acc) k = lookupKV pr k := by
  intro ents
  induction ents with
  | nil => intro acc _ hacc k; exact hacc k
  | cons ent ents ih =>
      intro acc hents hacc k
      simp only [List.foldl_cons]
      cases hprog : ent.2.progress with
      | none =>
          exact ih acc (fun e he => hents e (List.mem_cons_of_mem _ he)) hacc k
      | some prog =>
          refine ih _ (fun e he => hents e (List.mem_cons_of_mem _ he)) ?_ k
          intro k2
          rw [lookupKV_setKV]
          by_cases hk : k2 = ent.1
          · rw [if_pos hk, hk]
            have := hents ent (List.mem_cons_self _ _)
            rw [hprog] at this
            exact this
          · rw [if_neg hk]
            exact hacc k2

theorem lastCompletedEntry_of_decomp (l₁ : List TaskStatusChange)
    (c : TaskStatusChange) (l₂ : List TaskStatusChange)
    (hc : c.status = .completed)
    (hl2 : ∀ d ∈ l₂, d.status ≠ .completed) :
    lastCompletedEntry (l₁ ++ c :: l₂) = some c := by
  have hnone : (l₂.reverse).find? (fun d => d.status == .completed) = none := by
    rw [List.find?_eq_none]
    intro d hd
    rw [List.mem_reverse] at hd
    simpa using hl2 d hd
  simp only [lastCompletedEntry, List.reverse_append, List.reverse_cons]
  rw [List.append_assoc, find?_append_of_none _ _ _ hnone]
  have hcb : (c.status == TaskStatus.completed) = true := beq_iff_eq.mpr hc
  simp only [List.cons_append, List.find?_cons, hcb, cond_true]

theorem lastCompletedEntry_eq_none (l : List TaskStatusChange)
    (h : ∀ d ∈ l, d.status ≠ .completed) : lastCompletedEntry l = none := by
  simp only [lastCompletedEntry]
  rw [List.find?_eq_none]
  intro d hd
  rw [List.mem_reverse] at hd
  simpa using h d hd

/-! ## Claim theorems -/

/-- Claim C10: when no answer exists for `taskId`, `markAsGoodEnough` leaves
the answers list (and so every status history) unchanged, creates no record,
discards the flag, and only updates the aggregate's `lastActivity`. -/
theorem c10_mark_good_enough_no_answer (now : Nat) (p : Progress) (tid : String)
    (flag : Bool) (h : findAnswer p tid = none) :
    markAsGoodEnough now p tid flag = { p with lastActivity := now } :=
  markAsGoodEnough_not_found now p tid flag h

/-- Witness for C10 at a concrete empty aggregate. -/
theorem c10_witness :
    markAsGoodEnough 7 (initialProgress "u" 0) "t" true =
      { initialProgress "u" 0 with lastActivity := 7 } :=
  c10_mark_good_enough_no_answer 7 (initialProgress "u" 0) "t" true (by decide)

/-- Claim C2, amended: `markAsGoodEnough` sets the flag on the task's answer
and appends one history entry exactly when the derived status changes, with
the recorded status `completed` for flag true and always `in-progress` for
flag false (the source does not recompute it from content presence). -/
theorem c2_mark_good_enough_behavior (now : Nat) (p : Progress) (tid : String)
    (flag : Bool) (a : StudentAnswer) (h : findAnswer p tid = some a) :
    findAnswer (markAsGoodEnough now p tid flag) tid = some
      (if getTaskStatus p tid ≠
          (if flag then TaskStatus.completed else TaskStatus.inProgress)
       then { a with
              isGoodEnough := flag
              lastModified := now
              statusHistory := a.statusHistory ++
                [{ timestamp := now
                   status := if flag then TaskStatus.completed else TaskStatus.inProgress
                   previousStatus := getTaskStatus p tid }] }
       else { a with isGoodEnough := flag }) :=
  markAsGoodEnough_found now p tid flag a h

/-- Witness for C2's amended theorem on a concrete in-progress answer. -/
theorem c2_witness :
    findAnswer (markAsGoodEnough 5 progressOneDraft "t1" true) "t1" = some
      { taskId := "t1", content := "draft", submissionDate := 1,
        lastModified := 5, version := 1, isGoodEnough := true,
        feedbackRequested := false, feedback := none,
        statusHistory := [{ timestamp := 1, status := .inProgress,
                            previousStatus := .notStarted },
                          { timestamp := 5, status := .completed,
                            previousStatus := .inProgress }] } := by
  rw [c2_mark_good_enough_behavior 5 progressOneDraft "t1" true answerDraft (by decide)]
  decide

/-- Counterexample for C2 as stated: on a blank-content good-enough answer,
`markAsGoodEnough(false)` records `in-progress`, while the claim's
content-based recomputation demands `not-started`. -/
theorem c2_counterexample :
    trimmedNonEmpty answerBlankGoodEnough.content = false ∧
    markNewStatusSpec answerBlankGoodEnough false = .notStarted ∧
    ((findAnswer (markAsGoodEnough 5 progressBlankGoodEnough "t1" false) "t1").map
        (fun a => a.statusHistory.getLast?)) =
      some (some { timestamp := 5, status := .inProgress,
                   previousStatus := .completed }) := by
  decide

/-- Claim C4, amended: `getTaskStatus` and the analytics status derivation
both equal the spec's single derivation (not-started without an answer,
completed when good enough, in-progress otherwise); the exception is
`updateAnswer`'s own history-status computation, which derives from content
presence (see the counterexample). -/
theorem c4_status_single_derivation :
    (∀ (p : Progress) (tid : String),
      getTaskStatus p tid = derivedStatusSpec (findAnswer p tid)) ∧
    (∀ ans : Option StudentAnswer, analyticsStatus ans = derivedStatusSpec ans) := by
  constructor
  · intro p tid
    simp only [getTaskStatus, derivedStatusSpec]
  · intro ans
    cases ans <;> rfl

/-- Counterexample for C4 as stated: a content-clearing `updateAnswer` on an
existing answer records status `not-started` in the history even though an
answer exists with `isGoodEnough = false`, where the single derivation says
`in-progress`. -/
theorem c4_counterexample :
    ((findAnswer (updateAnswer 5 progressBlankAnswer "t1" "") "t1").map
        (fun a => a.statusHistory)) =
      some [{ timestamp := 5, status := .notStarted,
              previousStatus := .inProgress }] ∧
    getTaskStatus progressBlankAnswer "t1" = .inProgress ∧
    opNewStatus progressBlankAnswer (.update "t1" "") = .notStarted ∧
    derivedStatusSpec (findAnswer (updateAnswer 5 progressBlankAnswer "t1" "") "t1") =
      .inProgress := by
  decide

/-- Claim C5: the first `updateAnswer` for a task creates its answer with
`version = 1`, `submissionDate` equal to that write's time and
`isGoodEnough = false`; each further `updateAnswer` adds exactly 1 to the
version; and no other store operation changes any answer's version. -/
theorem c5_version_monotonicity (now : Nat) (p : Progress) (tid content : String) :
    (findAnswer p tid = none →
      (findAnswer (updateAnswer now p tid content) tid).map
          (fun a => (a.version, a.submissionDate, a.isGoodEnough)) =
        some (1, now, false)) ∧
    (∀ a, findAnswer p tid = some a →
      (findAnswer (updateAnswer now p tid content) tid).map
          (fun a2 => a2.version) = some (a.version + 1)) ∧
    (∀ flag, (markAsGoodEnough now p tid flag).answers.map (fun a => a.version) =
      p.answers.map (fun a => a.version)) ∧
    ((addFeedback now p tid content).answers.map (fun a => a.version) =
      p.answers.map (fun a => a.version)) ∧
    ((markTaskComplete now p tid).answers.map (fun a => a.version) =
      p.answers.map (fun a => a.version)) ∧
    ((markTaskIncomplete now p tid).answers.map (fun a => a.version) =
      p.answers.map (fun a => a.version)) ∧
    (∀ lo, (setCurrentTask now p lo tid).answers.map (fun a => a.version) =
      p.answers.map (fun a => a.version)) := by
  refine ⟨?_, ?_, ?_, ?_, rfl, rfl, fun lo => rfl⟩
  · intro h
    rw [updateAnswer_not_found now p tid content h]
    rfl
  · intro a h
    rw [updateAnswer_found now p tid content a h]
    rfl
  · intro flag
    exact versions_markAsGoodEnough now p tid flag
  · exact versions_addFeedback now p tid content

/-- Witness for C5 at a concrete first write. -/
theorem c5_witness :
    (findAnswer (updateAnswer 3 (initialProgress "u" 0) "t1" "hi") "t1").map
        (fun a => (a.version, a.submissionDate, a.isGoodEnough)) =
      some (1, 3, false) :=
  (c5_version_monotonicity 3 (initialProgress "u" 0) "t1" "hi").1 (by decide)

/-- Claim C3, amended: over any `updateAnswer`/`markAsGoodEnough` sequence the
histories are append-only (no entry rewritten or removed); with sorted
histories and non-decreasing clocks every history stays chronologically
ordered; and one operation appends exactly when the status it computes
(content-based for `updateAnswer`, flag-based for `markAsGoodEnough`) differs
from the derived status before the write — not whenever the derived status of
the resulting state differs (see the counterexample). -/
theorem c3_history_append_only (p : Progress) (ops : List (Nat × StoreOp))
    (b : Nat) (hs : HistSortedLE p b) (ht : timesMono b ops = true) :
    HistExtend p (applyOps p ops) ∧
    (∀ a ∈ (applyOps p ops).answers,
      a.statusHistory.Pairwise (fun c d => c.timestamp ≤ d.timestamp)) ∧
    (∀ (now : Nat) (op : StoreOp) (a2 : StudentAnswer),
      findAnswer p op.target = some a2 →
      (findAnswer (applyOp now p op) op.target).map (fun x => x.statusHistory) =
        some (a2.statusHistory ++
          (if getTaskStatus p op.target ≠ opNewStatus p op then
            [{ timestamp := now, status := opNewStatus p op,
               previousStatus := getTaskStatus p op.target }]
          else []))) := by
  refine ⟨histExtend_applyOps p ops, ?_, ?_⟩
  · obtain ⟨b2, hb2⟩ := histSorted_applyOps p b ops hs ht
    intro a ha
    exact (hb2 a ha).1
  · intro now op a2 h
    cases op with
    | update tid c =>
        rw [show StoreOp.target (.update tid c) = tid from rfl] at h ⊢
        rw [show applyOp now p (.update tid c) = updateAnswer now p tid c from rfl]
        rw [updateAnswer_found now p tid c a2 h]
        rfl
    | markGE tid flag =>
        rw [show StoreOp.target (.markGE tid flag) = tid from rfl] at h ⊢
        rw [show applyOp now p (.markGE tid flag) = markAsGoodEnough now p tid flag from rfl]
        rw [markAsGoodEnough_found now p tid flag a2 h]
        rw [show opNewStatus p (.markGE tid flag) =
          (if flag then TaskStatus.completed else TaskStatus.inProgress) from rfl]
        by_cases hc : getTaskStatus p tid ≠
            (if flag then TaskStatus.completed else TaskStatus.inProgress)
        · rw [if_pos hc, if_pos hc]
          rfl
        · rw [if_neg hc, if_neg hc]
          simp

/-- Witness for C3's amended theorem on a concrete two-operation run. -/
theorem c3_witness :
    HistExtend (initialProgress "u" 0)
      (applyOps (initialProgress "u" 0)
        [(1, .update "t1" "draft"), (2, .markGE "t1" true)]) :=
  (c3_history_append_only (initialProgress "u" 0)
    [(1, .update "t1" "draft"), (2, .markGE "t1" true)] 0
    (by intro a ha; simp [initialProgress] at ha) (by decide)).1

/-- Counterexample for C3 as stated: a blank first write creates an answer
(derived status goes not-started → in-progress across the write), yet no
history entry is appended. -/
theorem c3_counterexample :
    getTaskStatus (initialProgress "u" 0) "t1" = .notStarted ∧
    getTaskStatus (updateAnswer 5 (initialProgress "u" 0) "t1" "") "t1" =
      .inProgress ∧
    ((findAnswer (updateAnswer 5 (initialProgress "u" 0) "t1" "") "t1").map
        (fun a => a.statusHistory)) = some [] := by
  decide

/-- Claim C1, amended: for a good-enough answer the analytics engine resolves
the completion date as the timestamp of the most recent `completed` entry of
its status history, and falls back to `submissionDate` whenever the history
contains no `completed` entry at all (also when a non-empty history merely
lacks one — not only when no history is present); in particular, an answer
created in-progress at `T0` and marked good-enough at `T1` resolves to `T1`. -/
theorem c1_completion_date_resolution :
    (∀ (a : StudentAnswer) (l₁ : List TaskStatusChange) (c : TaskStatusChange)
        (l₂ : List TaskStatusChange),
      a.statusHistory = l₁ ++ c :: l₂ → c.status = .completed →
      (∀ d ∈ l₂, d.status ≠ .completed) →
      resolveCompletedDate a = some c.timestamp) ∧
    (∀ a : StudentAnswer, a.isGoodEnough = true →
      (∀ d ∈ a.statusHistory, d.status ≠ .completed) →
      resolveCompletedDate a = some a.submissionDate) ∧
    (∀ (T0 T1 s : Nat) (u tid content : String),
      trimmedNonEmpty content = true →
      ((findAnswer (markAsGoodEnough T1
          (updateAnswer T0 (initialProgress u s) tid content) tid true) tid).map
        resolveCompletedDate) = some (some T1)) := by
  refine ⟨?_, ?_, ?_⟩
  · intro a l₁ c l₂ hdecomp hc hl2
    have hlen : a.statusHistory.length > 0 := by
      rw [hdecomp]
      simp
    simp only [resolveCompletedDate]
    rw [if_pos hlen, hdecomp, lastCompletedEntry_of_decomp l₁ c l₂ hc hl2]
    rfl
  · intro a hg hnc
    have hnone : lastCompletedEntry a.statusHistory = none :=
      lastCompletedEntry_eq_none _ hnc
    simp only [resolveCompletedDate]
    by_cases hlen : a.statusHistory.length > 0
    · rw [if_pos hlen, hnone]
      simp [hg]
    · rw [if_neg hlen]
      simp [hg]
  · intro T0 T1 s u tid content hc
    have h0 : findAnswer (initialProgress u s) tid = none := by
      simp [findAnswer, initialProgress]
    have hop : opNewStatus (initialProgress u s) (.update tid content) =
        .inProgress := by
      simp only [opNewStatus, h0, hc, if_true]
    have h1 := updateAnswer_not_found T0 (initialProgress u s) tid content h0
    rw [hop, if_pos (by decide : TaskStatus.notStarted ≠ TaskStatus.inProgress)] at h1
    have hst : getTaskStatus (updateAnswer T0 (initialProgress u s) tid content)
        tid = .inProgress := by
      simp only [getTaskStatus, h1]
      rfl
    have h2 := markAsGoodEnough_found T1
      (updateAnswer T0 (initialProgress u s) tid content) tid true _ h1
    rw [hst, if_pos (by decide :
        TaskStatus.inProgress ≠
          (if (true : Bool) then TaskStatus.completed else TaskStatus.inProgress))] at h2
    rw [h2]
    rfl

/-- Witness for C1's amended theorem: a concrete answer whose history holds a
later reverted entry after its most recent completion. -/
theorem c1_witness :
    resolveCompletedDate
      { taskId := "t1", content := "x", submissionDate := 4, lastModified := 9,
        version := 2, isGoodEnough := false, feedbackRequested := false,
        feedback := none,
        statusHistory := [{ timestamp := 6, status := .completed,
                            previousStatus := .inProgress },
                          { timestamp := 9, status := .inProgress,
                            previousStatus := .completed }] } = some 6 :=
  c1_completion_date_resolution.1 _
    [] { timestamp := 6, status := .completed, previousStatus := .inProgress }
    [{ timestamp := 9, status := .inProgress, previousStatus := .completed }]
    rfl rfl (by decide)

/-- Counterexample for C1 as stated: a good-enough answer with a non-empty
history lacking any `completed` entry still falls back to `submissionDate`,
although history is present. -/
theorem c1_counterexample :
    answerNoCompletedEntry.isGoodEnough = true ∧
    answerNoCompletedEntry.statusHistory ≠ [] ∧
    resolveCompletedDate answerNoCompletedEntry =
      some answerNoCompletedEntry.submissionDate ∧
    resolveCompletedDate answerNoCompletedEntry ≠
      resolveCompletedDateSpec answerNoCompletedEntry := by
  decide

/-- Claim C7: the current streak is 0 whenever no completion falls on today or
yesterday, and in general `calculateStreak` equals the specification streak:
consecutive completion days walking backward from today over a 30-day window,
stopping at the first inactive day, with today tolerated as an inactive
anchor. -/
theorem c7_current_streak (now : Nat) (dates : List Nat) :
    (activeOnDay dates (dayIndex now - ((0 : Nat) : Int)) = false →
     activeOnDay dates (dayIndex now - ((1 : Nat) : Int)) = false →
     calculateStreak now dates = 0) ∧
    calculateStreak now dates = streakSpec now dates := by
  refine ⟨?_, calculateStreak_eq_streakSpec now dates⟩
  intro h0 h1
  rw [calculateStreak_eq_streakSpec]
  simp only [streakSpec]
  rw [if_neg (by simp only [h0]; decide), if_neg (by simp only [h1]; decide)]

/-- Witness for C7: one completion two days ago yields streak 0. -/
theorem c7_witness : calculateStreak (msPerDay * 3 + 5) [msPerDay] = 0 :=
  (c7_current_streak (msPerDay * 3 + 5) [msPerDay]).1 (by decide) (by decide)

/-- Claim C8: the completion rate over deduplicated tasks is
`completed/total*100`, always within `[0, 100]`, and exactly 0 (never
undefined) when the deduplicated total task count is 0. -/
theorem c8_completion_rate (units : List UnitInput) :
    0 ≤ completionRate units ∧ completionRate units ≤ 100 ∧
    (totalTasksCount units = 0 → completionRate units = 0) ∧
    (0 < totalTasksCount units →
      completionRate units =
        (completedTasksCount units : ℚ) / (totalTasksCount units : ℚ) * 100) := by
  have hle : completedTasksCount units ≤ totalTasksCount units :=
    List.length_filter_le _ _
  refine ⟨?_, ?_, ?_, ?_⟩
  · simp only [completionRate]
    by_cases h : totalTasksCount units > 0
    · rw [if_pos h]
      positivity
    · rw [if_neg h]
  · simp only [completionRate]
    by_cases h : totalTasksCount units > 0
    · rw [if_pos h]
      have ht : (0 : ℚ) < (totalTasksCount units : ℚ) := by exact_mod_cast h
      have hdiv : (completedTasksCount units : ℚ) / (totalTasksCount units : ℚ) ≤ 1 :=
        (div_le_one ht).mpr (by exact_mod_cast hle)
      calc (completedTasksCount units : ℚ) / (totalTasksCount units : ℚ) * 100
            ≤ 1 * 100 := mul_le_mul_of_nonneg_right hdiv (by norm_num)
        _ = 100 := by norm_num
    · rw [if_neg h]
      norm_num
  · intro h
    simp only [completionRate]
    rw [if_neg (by omega)]
  · intro h
    simp only [completionRate]
    rw [if_pos h]

/-- Witness for C8: the empty unit collection has rate 0. -/
theorem c8_witness : completionRate [] = 0 :=
  (c8_completion_rate []).2.2.1 rfl

/-- Claim C9: when the current task id does not occur in the deduplicated,
flattened, outcome-ordered task sequence, `getNextTask` returns the first
task of the sequence (the not-found index -1 selects element 0), and it
returns `none` exactly when the sequence is empty or the current task is its
last element. -/
theorem c9_get_next_task (p : Progress) (los : List (String × List String)) :
    (p.currentTask ∉ (nextTaskSeq los).map Prod.snd →
      getNextTask p los = (nextTaskSeq los).head?) ∧
    (getNextTask p los = none ↔
      nextTaskSeq los = [] ∨
        (nextTaskSeq los).getLast?.map Prod.snd = some p.currentTask) :=
  ⟨fun h => getNextTask_not_found p los h, getNextTask_none_iff p los⟩

/-- Witness for C9: an absent current task selects the sequence's head. -/
theorem c9_witness :
    getNextTask (initialProgress "u" 0) [("LO1", ["a", "b"])] =
      (nextTaskSeq [("LO1", ["a", "b"])]).head? :=
  (c9_get_next_task (initialProgress "u" 0) [("LO1", ["a", "b"])]).1 (by decide)

/-- Claim C6: importing the result of an export reproduces the unit catalogue
and all per-unit progress (extensionally, per key), and reproduces each unit
summary except that its `completedTasks` is recomputed from the imported
progress record's `completedTasks.length` whenever that record exists. -/
theorem c6_export_import_round_trip {υ : Type} (now : Nat) (s : StorageState υ)
    (hnd : (s.unitList.map UnitSummaryT.id).Nodup)
    (hcov : ∀ e ∈ s.units, e.1 ∈ s.unitList.map UnitSummaryT.id) :
    (∀ k, lookupKV (importProgress (exportAllProgress now s) s).units k =
      lookupKV s.units k) ∧
    (∀ k, lookupKV (importProgress (exportAllProgress now s) s).progress k =
      lookupKV s.progress k) ∧
    (importProgress (exportAllProgress now s) s).unitList =
      s.unitList.map (fun summ =>
        match lookupKV s.progress summ.id with
        | some prog => { summ with completedTasks := prog.completedTasks.length }
        | none => summ) := by
  refine ⟨?_, ?_, ?_⟩
  · intro k
    simp only [importProgress, exportAllProgress]
    rw [lookup_rebuilt_units s.units s.progress s.unitList k]
    by_cases hmem : k ∈ s.unitList.map UnitSummaryT.id
    · rw [if_pos hmem]
    · rw [if_neg hmem]
      cases hf : s.units.find? (fun e => e.1 == k) with
      | none => simp [lookupKV, hf]
      | some e =>
          exfalso
          have hmem2 : e ∈ s.units := List.mem_of_find?_eq_some hf
          have hpe := List.find?_some hf
          exact hmem (beq_iff_eq.mp hpe ▸ hcov e hmem2)
  · intro k
    simp only [importProgress]
    refine lookup_progress_fold s.progress (exportAllProgress now s).units
      s.progress ?_ (fun _ => rfl) k
    intro ent hent
    simp only [exportAllProgress] at hent
    obtain ⟨summ, _, rfl⟩ := List.mem_map.mp hent
    rfl
  · simp only [importProgress, exportAllProgress, List.map_map]
    refine List.map_congr_left ?_
    intro summ hmem
    simp only [Function.comp_apply]
    rw [lookupKV_map_by_id s.unitList _ hnd summ hmem]
    rfl

/-- Witness for C6 on a one-unit concrete storage state. -/
theorem c6_witness :
    (importProgress (exportAllProgress 5 storageStateEx) storageStateEx).unitList =
      [{ id := "u1", title := "Unit 1", totalTasks := 3, completedTasks := 2,
         lastActivity := none, dateAdded := 0 }] := by
  rw [(c6_export_import_round_trip 5 storageStateEx (by decide) (by decide)).2.2]
  decide
